import Mathlib

/-!
# go-hashpipe: hashing writer and hashing reader

A shallow embedding of `hashpipe.go`:

* `NewWriter h w = io.MultiWriter(w, h)`
* `NewReader h r = io.TeeReader(r, h)`

together with the two adapters of the Go standard library that the file is
built from (package `io`: `MultiWriter` and `(*multiWriter).Write` in
`multi.go`, `TeeReader` and `(*teeReader).Read` in `io.go`).

Stateful Go objects are modelled by explicit state passing: a method of an
object living in a world of type `σ` is a function `σ → result × σ`.
Byte slices are lists of bytes, Go `int` counts are `Int`, a Go `error` is an
`Option GoError` (`none` is `nil`), and a run-time panic is `Option.none` of
the whole call.
-/

namespace Hashpipe

/-! ## Data model -/

/-- One byte of a Go `[]byte`. -/
abbrev Byte := Fin 256

/-- Non-nil Go `error` values: the two sentinels of package `io` that matter
here, and any other error, identified by a code. -/
inductive GoError where
  | EOF
  | ErrShortWrite
  | other (code : Nat)
  deriving DecidableEq, Repr

/-- Result pair `(n int, err error)` of an `io.Writer.Write` call. -/
abbrev WriteResult := Int × Option GoError

/-- Result of an `io.Reader.Read` call: `(n int, err error)` and the contents
of the caller's buffer after the call. -/
abbrev ReadResult := Int × Option GoError × List Byte

/-- An `io.Writer` whose dynamic type is not `*io.multiWriter`: an arbitrary
`Write` method acting on the world `σ`. -/
structure PlainWriter (σ : Type) where
  Write : List Byte → σ → WriteResult × σ

/-- An `io.Writer` interface value, split by the type switch that
`io.MultiWriter` performs on it. The unexported `*multiWriter` is only ever
built by `io.MultiWriter`, which flattens its arguments, so the writers it
holds are never themselves `*multiWriter`s. -/
inductive Writer (σ : Type) where
  | multiWriter (writers : List (PlainWriter σ))
  | plain (w : PlainWriter σ)

/-- A `hash.Hash`: `Write` adds data to the running hash, `Sum b` appends the
current digest to `b` without changing the state. (`Reset`, `Size` and
`BlockSize` are not used by the adapters.) -/
structure Hash (σ : Type) where
  Write : List Byte → σ → WriteResult × σ
  Sum : List Byte → σ → List Byte

/-- An `io.Reader`: `Read p` is given the caller's buffer `p` and returns the
count, the error and the buffer contents after the call; the buffer keeps its
length. -/
structure Reader (σ : Type) where
  Read : List Byte → σ → ReadResult × σ
  Read_length : ∀ p s, (Read p s).1.2.2.length = p.length

/-! ## `io.MultiWriter` -/

/-- The loop of `func (t *multiWriter) Write(p []byte) (n int, err error)`:
```go
for _, w := range t.writers {
    n, err = w.Write(p)
    if err != nil { return }
    if n != len(p) { err = ErrShortWrite; return }
}
return len(p), nil
``` -/
def multiWriter.Write {σ : Type} (writers : List (PlainWriter σ)) (p : List Byte) (s : σ) :
    WriteResult × σ :=
  match writers with
  | [] => (((p.length : Int), none), s)
  | w :: ws =>
    match w.Write p s with
    | ((n, err), s1) =>
      if err ≠ none then ((n, err), s1)
      else if n ≠ (p.length : Int) then ((n, some GoError.ErrShortWrite), s1)
      else multiWriter.Write ws p s1

/-- Dynamic dispatch of `w.Write(p)` on an `io.Writer` interface value. -/
def Writer.Write {σ : Type} (w : Writer σ) (p : List Byte) (s : σ) : WriteResult × σ :=
  match w with
  | .multiWriter writers => multiWriter.Write writers p s
  | .plain w => w.Write p s

/-- The function `func MultiWriter(writers ...Writer) Writer`:
```go
allWriters := make([]Writer, 0, len(writers))
for _, w := range writers {
    if mw, ok := w.(*multiWriter); ok {
        allWriters = append(allWriters, mw.writers...)
    } else {
        allWriters = append(allWriters, w)
    }
}
return &multiWriter{allWriters}
``` -/
def MultiWriter {σ : Type} (writers : List (Writer σ)) : Writer σ :=
  .multiWriter
    (writers.foldl
      (fun allWriters w =>
        match w with
        | .multiWriter ws => allWriters ++ ws
        | .plain w => allWriters ++ [w])
      [])

/-- A `hash.Hash` seen as the `io.Writer` it embeds; its dynamic type is
never `*multiWriter`. -/
def Hash.toWriter {σ : Type} (h : Hash σ) : Writer σ :=
  .plain ⟨h.Write⟩

/-! ## `io.TeeReader` -/

/-- The struct `teeReader`, holding the source `r` and the writer `w`. -/
structure teeReader (σ : Type) where
  r : Reader σ
  w : Writer σ

/-- The function `func TeeReader(r Reader, w Writer) Reader`. -/
def TeeReader {σ : Type} (r : Reader σ) (w : Writer σ) : teeReader σ :=
  ⟨r, w⟩

/-- The method `func (t *teeReader) Read(p []byte) (n int, err error)`:
```go
n, err = t.r.Read(p)
if n > 0 {
    if n, err := t.w.Write(p[:n]); err != nil {
        return n, err
    }
}
return
```
The slice expression `p[:n]` panics when `n` exceeds the buffer (buffers are
modelled with capacity equal to length); a panic is the result `none`. -/
def teeReader.Read {σ : Type} (t : teeReader σ) (p : List Byte) (s : σ) :
    Option (ReadResult × σ) :=
  match t.r.Read p s with
  | ((n, err, q), s1) =>
    if n > 0 then
      if n > (p.length : Int) then none
      else
        match t.w.Write (q.take n.toNat) s1 with
        | ((m, werr), s2) =>
          if werr ≠ none then some ((m, werr, q), s2)
          else some ((n, err, q), s2)
    else some ((n, err, q), s1)

/-! ## `hashpipe.go` -/

/-- The function `NewWriter` of `hashpipe.go`, uncurried:
`NewWriter(h)(w) = io.MultiWriter(w, h)`. -/
def NewWriter {σ : Type} (h : Hash σ) (w : Writer σ) : Writer σ :=
  MultiWriter [w, h.toWriter]

/-- The function `NewReader` of `hashpipe.go`, uncurried:
`NewReader(h)(r) = io.TeeReader(r, h)`. -/
def NewReader {σ : Type} (h : Hash σ) (r : Reader σ) : teeReader σ :=
  TeeReader r h.toWriter

/-! ## Environment: separate stream and accumulator state

The claims speak of the state of the hash accumulator and of the wrapped
stream as two distinct things. `World δ η` is a world made of exactly these
two, and the `on...` functions place an object that owns one of the two
components into that world. -/

/-- A world made of the state of the wrapped stream (destination or source)
and the state of the hash accumulator. -/
structure World (δ η : Type) where
  stream : δ
  acc : η
  deriving DecidableEq, Repr

/-- A writer owning the stream component, placed in the two-component world. -/
def PlainWriter.onStream {δ η : Type} (w : PlainWriter δ) : PlainWriter (World δ η) :=
  ⟨fun p s => ((w.Write p s.stream).1, { s with stream := (w.Write p s.stream).2 })⟩

/-- A destination owning the stream component, placed in the two-component
world; its dynamic type is kept. -/
def Writer.onStream {δ η : Type} (w : Writer δ) : Writer (World δ η) :=
  match w with
  | .multiWriter ws => .multiWriter (ws.map PlainWriter.onStream)
  | .plain w => .plain w.onStream

/-- An accumulator owning the accumulator component, placed in the
two-component world. -/
def Hash.onAcc {δ η : Type} (h : Hash η) : Hash (World δ η) :=
  ⟨fun p s => ((h.Write p s.acc).1, { s with acc := (h.Write p s.acc).2 }),
   fun b s => h.Sum b s.acc⟩

/-- A source owning the stream component, placed in the two-component world. -/
def Reader.onStream {δ η : Type} (r : Reader δ) : Reader (World δ η) :=
  ⟨fun p s => ((r.Read p s.stream).1, { s with stream := (r.Read p s.stream).2 }),
   fun p s => r.Read_length p s.stream⟩

/-- The accumulator's ingest never fails: every `Write` consumes its whole
input and reports no error (the documented contract of `hash.Hash`). -/
def Hash.NeverFails {η : Type} (h : Hash η) : Prop :=
  ∀ p a, (h.Write p a).1 = ((p.length : Int), none)

/-- The accumulator is a streaming hash: its state depends only on the byte
sequence ingested, not on how it was cut into `Write` calls. -/
def Hash.Streaming {η : Type} (h : Hash η) : Prop :=
  (∀ a, (h.Write [] a).2 = a) ∧
  ∀ x y a, (h.Write (x ++ y) a).2 = (h.Write y (h.Write x a).2).2

/-- The destination accepts every write in full and without error. -/
def Writer.AcceptsAll {δ : Type} (w : Writer δ) : Prop :=
  ∀ p d, (w.Write p d).1 = ((p.length : Int), none)

/-- The source keeps the `io.Reader` contract `n <= len(p)`. -/
def Reader.InBounds {δ : Type} (r : Reader δ) : Prop :=
  ∀ p d, (r.Read p d).1.1 ≤ (p.length : Int)

/-! ## Environment: concrete collaborators -/

/-- An in-memory sink, `(*bytes.Buffer).Write`: appends `p` to the contents
and returns `len(p), nil`. The state is the contents. -/
def bytesBuffer : PlainWriter (List Byte) :=
  ⟨fun p buf => (((p.length : Int), none), buf ++ p)⟩

/-- An in-memory source, `(*bytes.Buffer).Read`: on an empty buffer returns
`0, nil` for an empty `p` and `0, io.EOF` otherwise; else copies
`min(len(p), unread)` bytes into `p` and returns that count and `nil`. The
state is the unread part. -/
def bytesSource : Reader (List Byte) :=
  ⟨fun p buf =>
    if buf = [] then
      if p = [] then ((0, none, p), buf) else ((0, some GoError.EOF, p), buf)
    else
      (((min p.length buf.length : Nat), none,
        buf.take (min p.length buf.length) ++ p.drop (min p.length buf.length)),
       buf.drop (min p.length buf.length)),
   by
    intro p buf
    by_cases hb : buf = []
    · by_cases hp : p = [] <;> simp [hb, hp]
    · simp only [hb, if_false, List.length_append, List.length_take, List.length_drop]
      omega⟩

/-- A destination that takes only the first `k` bytes of every write: it
stores them, reports the count of bytes taken and the error `err`. -/
def shortWriter (k : Nat) (err : Option GoError) : PlainWriter (List Byte) :=
  ⟨fun p got => ((((p.take k).length : Nat), err), got ++ p.take k)⟩

/-- A source that puts `data` at the start of the caller's buffer (as much
of it as fits) and reports that count together with the signal `sig`,
whatever its state. -/
def fixedSource (data : List Byte) (sig : Option GoError) : Reader Unit :=
  ⟨fun p u =>
    (((min p.length data.length : Nat), sig,
      data.take (min p.length data.length) ++ p.drop (min p.length data.length)), u),
   by
    intro p u
    simp only [List.length_append, List.length_take, List.length_drop]
    omega⟩

/-- The recording accumulator: its state is the byte sequence ingested so
far and its digest is that sequence itself, so every streaming hash is a
function of it. `Write` never fails. -/
def recorder : Hash (List Byte) :=
  ⟨fun p a => (((p.length : Int), none), a ++ p), fun b a => b ++ a⟩

/-- A toy 8-bit checksum accumulator: the state is the sum of the bytes
ingested so far modulo 256, the digest is that one byte. -/
def sum8 : Hash (Fin 256) :=
  ⟨fun p a => (((p.length : Int), none), p.foldl (fun x y => x + y) a), fun b a => b ++ [a]⟩

/-- A destination that accepts every write in full and appends the pair
`(tag, p)` to a shared log of calls. -/
def logWriter (tag : Nat) : PlainWriter (List (Nat × List Byte)) :=
  ⟨fun p log => (((p.length : Int), none), log ++ [(tag, p)])⟩

/-- An accumulator that appends the pair `(tag, p)` to a shared log of calls
on every ingest; its digest is the bytes it was handed, in order. -/
def logHash (tag : Nat) : Hash (List (Nat × List Byte)) :=
  ⟨fun p log => (((p.length : Int), none), log ++ [(tag, p)]),
   fun b log => b ++ ((log.filter (fun e => e.1 = tag)).map Prod.snd).flatten⟩

/-! ## Environment: callers -/

/-- A caller that writes the chunks in order, one `Write` call per chunk,
and collects the results. -/
def writeChunks {σ : Type} (w : Writer σ) (chunks : List (List Byte)) (s : σ) :
    List WriteResult × σ :=
  match chunks with
  | [] => ([], s)
  | c :: cs => ((w.Write c s).1 :: (writeChunks w cs (w.Write c s).2).1,
      (writeChunks w cs (w.Write c s).2).2)

/-- A caller that issues one `Read` call per buffer of `bufs`, in order, and
collects the results; `none` when a call panics. -/
def readCalls {σ : Type} (t : teeReader σ) (bufs : List (List Byte)) (s : σ) :
    Option (List ReadResult × σ) :=
  match bufs with
  | [] => some ([], s)
  | p :: ps =>
    match t.Read p s with
    | none => none
    | some (res, s1) =>
      match readCalls t ps s1 with
      | none => none
      | some (rs, s2) => some (res :: rs, s2)

/-- The bytes a `Read` call hands to its caller: the first `n` bytes of the
buffer, `p[:n]`. -/
def returned (res : ReadResult) : List Byte :=
  res.2.2.take res.1.toNat

/-- The inner loop of `BenchHashReader` in `hashpipe_test.go`, for one
payload:
```go
for numBytes := 0; numBytes < size; {
    n, e := hpr.Read(output)
    if e != nil && e != io.EOF { b.FailNow() }
    numBytes += n
}
```
The caller's buffer `output` is an argument (the benchmark allocates one of
`size` bytes) and keeps its contents from one call to the next. The results
of the calls are collected, followed by the final `numBytes` and the final
world. The result is `none` when a call panics, when `b.FailNow()` is
reached, or when `fuel` calls did not end the loop. -/
def BenchHashReader.loop {σ : Type} (hpr : teeReader σ) (size : Nat) (fuel : Nat)
    (numBytes : Int) (output : List Byte) (s : σ) : Option (List ReadResult × Int × σ) :=
  match fuel with
  | 0 => if numBytes < (size : Int) then none else some ([], numBytes, s)
  | fuel + 1 =>
    if numBytes < (size : Int) then
      match hpr.Read output s with
      | none => none
      | some ((n, e, q), s1) =>
        if e ≠ none ∧ e ≠ some GoError.EOF then none
        else
          match BenchHashReader.loop hpr size fuel (numBytes + n) q s1 with
          | none => none
          | some (rs, out) => some ((n, e, q) :: rs, out)
    else some ([], numBytes, s)

/-- The chunks of a run of writes that the destination, run on its own from
the state `d`, accepts in full and without error, in order. -/
def acceptedChunks {δ : Type} (w : Writer δ) (chunks : List (List Byte)) (d : δ) :
    List (List Byte) :=
  match chunks with
  | [] => []
  | c :: cs =>
    if (w.Write c d).1 = ((c.length : Int), none) then
      c :: acceptedChunks w cs (w.Write c d).2
    else acceptedChunks w cs (w.Write c d).2

/-! ## Environment: two accumulators and an eager end-of-stream source -/

/-- An accumulator owning the first of a pair of accumulator states. -/
def Hash.onFst {η₁ η₂ : Type} (h : Hash η₁) : Hash (η₁ × η₂) :=
  ⟨fun p a => ((h.Write p a.1).1, ((h.Write p a.1).2, a.2)), fun b a => h.Sum b a.1⟩

/-- An accumulator owning the second of a pair of accumulator states. -/
def Hash.onSnd {η₁ η₂ : Type} (h : Hash η₂) : Hash (η₁ × η₂) :=
  ⟨fun p a => ((h.Write p a.2).1, (a.1, (h.Write p a.2).2)), fun b a => h.Sum b a.2⟩

/-- An in-memory source that signals end-of-stream on the very call that
delivers its last bytes (as `io.Reader` allows): it copies
`min(len(p), unread)` bytes into `p` and reports `io.EOF` when nothing is
left unread after the call, so every later call reports `0, io.EOF`. The
state is the unread part. -/
def eofSource : Reader (List Byte) :=
  ⟨fun p buf =>
    (((min p.length buf.length : Nat),
      if buf.drop (min p.length buf.length) = [] then some GoError.EOF else none,
      buf.take (min p.length buf.length) ++ p.drop (min p.length buf.length)),
     buf.drop (min p.length buf.length)),
   by
    intro p buf
    simp only [List.length_append, List.length_take, List.length_drop]
    omega⟩

/-! ## The behaviour of `multiWriter.Write` and `NewWriter` -/

theorem multiWriter.Write_cons {σ : Type} (w : PlainWriter σ) (ws : List (PlainWriter σ))
    (p : List Byte) (s : σ) :
    multiWriter.Write (w :: ws) p s =
      if (w.Write p s).1.2 ≠ none then w.Write p s
      else if (w.Write p s).1.1 ≠ (p.length : Int) then
        (((w.Write p s).1.1, some GoError.ErrShortWrite), (w.Write p s).2)
      else multiWriter.Write ws p (w.Write p s).2 := by
  rfl

/-- A `multiWriter` that reports no error has written everything. -/
theorem multiWriter.Write_count {σ : Type} (ws : List (PlainWriter σ)) (p : List Byte) (s : σ)
    (h : (multiWriter.Write ws p s).1.2 = none) :
    (multiWriter.Write ws p s).1.1 = (p.length : Int) := by
  induction ws generalizing s with
  | nil => rfl
  | cons w ws ih =>
    rw [multiWriter.Write_cons] at h ⊢
    by_cases h1 : (w.Write p s).1.2 = none
    · by_cases h2 : (w.Write p s).1.1 = (p.length : Int)
      · simp only [h1, h2, ne_eq, not_true_eq_false, if_false] at h ⊢
        exact ih _ h
      · simp [h1, h2] at h
    · simp [h1] at h

/-- Writing to the concatenation of two writer lists: the second list is
written only when the first one succeeded. -/
theorem multiWriter.Write_append {σ : Type} (ws vs : List (PlainWriter σ)) (p : List Byte)
    (s : σ) :
    multiWriter.Write (ws ++ vs) p s =
      if (multiWriter.Write ws p s).1.2 ≠ none then multiWriter.Write ws p s
      else multiWriter.Write vs p (multiWriter.Write ws p s).2 := by
  induction ws generalizing s with
  | nil => simp [multiWriter.Write]
  | cons w ws ih =>
    rw [List.cons_append, multiWriter.Write_cons, multiWriter.Write_cons]
    by_cases h1 : (w.Write p s).1.2 = none
    · by_cases h2 : (w.Write p s).1.1 = (p.length : Int)
      · simp only [h1, h2, ne_eq, not_true_eq_false, if_false]
        exact ih _
      · simp [h1, h2]
    · simp [h1]

/-- What one `Write` on `NewWriter h w` does, for every destination `w`
(a `*multiWriter` or not) and every accumulator `h`. -/
theorem NewWriter_Write {σ : Type} (h : Hash σ) (w : Writer σ) (p : List Byte) (s : σ) :
    (NewWriter h w).Write p s =
      if (w.Write p s).1.2 ≠ none then w.Write p s
      else if (w.Write p s).1.1 ≠ (p.length : Int) then
        (((w.Write p s).1.1, some GoError.ErrShortWrite), (w.Write p s).2)
      else if (h.Write p (w.Write p s).2).1.2 ≠ none then h.Write p (w.Write p s).2
      else if (h.Write p (w.Write p s).2).1.1 ≠ (p.length : Int) then
        (((h.Write p (w.Write p s).2).1.1, some GoError.ErrShortWrite),
          (h.Write p (w.Write p s).2).2)
      else (((p.length : Int), none), (h.Write p (w.Write p s).2).2) := by
  cases w with
  | plain w =>
    simp only [NewWriter, MultiWriter, Hash.toWriter, List.foldl, List.nil_append,
      List.singleton_append, Writer.Write, multiWriter.Write_cons]
    rfl
  | multiWriter ws =>
    simp only [NewWriter, MultiWriter, Hash.toWriter, List.foldl, List.nil_append,
      Writer.Write, multiWriter.Write_append, multiWriter.Write_cons]
    by_cases h1 : (multiWriter.Write ws p s).1.2 = none
    · have h2 := multiWriter.Write_count ws p s h1
      simp only [h1, h2, ne_eq, not_true_eq_false, if_false]
      rfl
    · simp [h1]

theorem multiWriter.Write_map_onStream {δ η : Type} (ws : List (PlainWriter δ)) (p : List Byte)
    (s : World δ η) :
    multiWriter.Write (ws.map PlainWriter.onStream) p s =
      ((multiWriter.Write ws p s.stream).1,
        { s with stream := (multiWriter.Write ws p s.stream).2 }) := by
  induction ws generalizing s with
  | nil => rfl
  | cons w ws ih =>
    rw [List.map_cons, multiWriter.Write_cons, multiWriter.Write_cons]
    by_cases h1 : (w.Write p s.stream).1.2 = none
    · by_cases h2 : (w.Write p s.stream).1.1 = (p.length : Int)
      · simp only [PlainWriter.onStream, h1, h2, ne_eq, not_true_eq_false, if_false]
        rw [ih]
      · simp [PlainWriter.onStream, h1, h2]
    · simp [PlainWriter.onStream, h1]

/-- A destination placed in the two-component world writes to the stream
component and leaves the accumulator component alone. -/
theorem Writer.onStream_Write {δ η : Type} (w : Writer δ) (p : List Byte) (s : World δ η) :
    (w.onStream : Writer (World δ η)).Write p s =
      ((w.Write p s.stream).1, { s with stream := (w.Write p s.stream).2 }) := by
  cases w with
  | plain w => rfl
  | multiWriter ws => exact multiWriter.Write_map_onStream ws p s

/-- What one `Write` on `NewWriter h w` does when the destination and the
accumulator own the two components of the world. -/
theorem NewWriter_onWorld_Write {δ η : Type} (h : Hash η) (w : Writer δ) (p : List Byte)
    (s : World δ η) :
    (NewWriter h.onAcc w.onStream).Write p s =
      if (w.Write p s.stream).1.2 ≠ none then
        ((w.Write p s.stream).1, ⟨(w.Write p s.stream).2, s.acc⟩)
      else if (w.Write p s.stream).1.1 ≠ (p.length : Int) then
        (((w.Write p s.stream).1.1, some GoError.ErrShortWrite),
          ⟨(w.Write p s.stream).2, s.acc⟩)
      else if (h.Write p s.acc).1.2 ≠ none then
        ((h.Write p s.acc).1, ⟨(w.Write p s.stream).2, (h.Write p s.acc).2⟩)
      else if (h.Write p s.acc).1.1 ≠ (p.length : Int) then
        (((h.Write p s.acc).1.1, some GoError.ErrShortWrite),
          ⟨(w.Write p s.stream).2, (h.Write p s.acc).2⟩)
      else (((p.length : Int), none), ⟨(w.Write p s.stream).2, (h.Write p s.acc).2⟩) := by
  rw [NewWriter_Write]
  simp only [Writer.onStream_Write, Hash.onAcc]

/-! ## Claims on the hashing writer -/

/-- C1: when the destination accepts all of `b` without error and the
accumulator's ingest of `b` does not fail, one `Write b` on `NewWriter h w`
returns `(len b, nil)` and changes the world by exactly one write of `b` on
`w` followed by exactly one ingest of `b` into `h`. -/
theorem C1_write_destination_then_hash {σ : Type} (h : Hash σ) (w : Writer σ) (b : List Byte)
    (s : σ)
    (hw : (w.Write b s).1 = ((b.length : Int), none))
    (hh : (h.Write b (w.Write b s).2).1 = ((b.length : Int), none)) :
    (NewWriter h w).Write b s = (((b.length : Int), none), (h.Write b (w.Write b s).2).2) := by
  rw [NewWriter_Write]
  simp [hw, hh]

/-- Witness of C1 on a shared call log: the destination's write is logged
first, the accumulator's ingest second, each once. -/
theorem C1_write_destination_then_hash_witness :
    (NewWriter (logHash 1) (Writer.plain (logWriter 0))).Write [102, 111, 111] [] =
      ((3, none), [(0, [102, 111, 111]), (1, [102, 111, 111])]) :=
  (C1_write_destination_then_hash (logHash 1) (Writer.plain (logWriter 0)) [102, 111, 111] []
    (by decide) (by decide)).trans (by decide)

/-- C2: one `Write s` through `NewWriter h sink`, with `sink` an initially
empty in-memory buffer, returns `(len s, nil)` and leaves the sink's contents
equal to `s` (the accumulator's ingest not failing). -/
theorem C2_roundtrip_sink_contents {η : Type} (h : Hash η) (s : List Byte) (a : η)
    (hh : (h.Write s a).1 = ((s.length : Int), none)) :
    (NewWriter h.onAcc (Writer.plain bytesBuffer).onStream).Write s ⟨[], a⟩ =
      (((s.length : Int), none), ⟨s, (h.Write s a).2⟩) := by
  rw [NewWriter_onWorld_Write]
  simp [Writer.Write, bytesBuffer, hh]

/-- Witness of C2: the three bytes of "foo" written into an empty sink, with
a recording accumulator that already holds `[9]`; the call returns
`(3, nil)`, the sink holds "foo" once and in full, and the accumulator holds
`[9]` followed by "foo". -/
theorem C2_roundtrip_sink_contents_witness :
    (NewWriter recorder.onAcc (Writer.plain bytesBuffer).onStream).Write [102, 111, 111]
        ⟨[], [9]⟩ =
      ((3, none), ⟨[102, 111, 111], [9, 102, 111, 111]⟩) :=
  (C2_roundtrip_sink_contents recorder [102, 111, 111] [9] (by decide)).trans (by decide)

/-- The accumulator after a run of chunked writes through `NewWriter` into a
destination that accepts everything. -/
theorem writeChunks_acc {δ η : Type} (h : Hash η) (w : Writer δ) (hw : w.AcceptsAll)
    (hs : h.Streaming) (chunks : List (List Byte)) (s : World δ η) :
    (writeChunks (NewWriter h.onAcc w.onStream) chunks s).2.acc =
      (h.Write chunks.flatten s.acc).2 := by
  induction chunks generalizing s with
  | nil => simp [writeChunks, hs.1]
  | cons c cs ih =>
    have h1 : ((NewWriter h.onAcc w.onStream).Write c s).2.acc = (h.Write c s.acc).2 := by
      rw [NewWriter_onWorld_Write]
      simp only [hw c s.stream, ne_eq, not_true_eq_false, if_false]
      split_ifs <;> rfl
    simp only [writeChunks, List.flatten_cons]
    rw [ih, h1, hs.2]

/-- C3: for every byte sequence `s` and every way of cutting it into
consecutive chunks, after the chunks are written in order through
`NewWriter h w`, with `w` accepting every write in full and `h` a streaming
hash started in any state `a` (in particular the fresh one), the state and
the snapshot of `h` are those of an accumulator started in `a` that ingested
`s` directly. -/
theorem C3_chunked_digest {δ η : Type} (h : Hash η) (w : Writer δ) (s : List Byte)
    (chunks : List (List Byte)) (d : δ) (a : η)
    (hw : w.AcceptsAll) (hs : h.Streaming) (hsplit : chunks.flatten = s) :
    (writeChunks (NewWriter h.onAcc w.onStream) chunks ⟨d, a⟩).2.acc = (h.Write s a).2 ∧
    ∀ b, h.Sum b (writeChunks (NewWriter h.onAcc w.onStream) chunks ⟨d, a⟩).2.acc =
      h.Sum b (h.Write s a).2 := by
  have key := writeChunks_acc h w hw hs chunks ⟨d, a⟩
  rw [hsplit] at key
  exact ⟨key, fun b => by rw [key]⟩

theorem bytesBuffer_AcceptsAll : (Writer.plain bytesBuffer).AcceptsAll := by
  intro p d
  rfl

theorem recorder_Streaming : recorder.Streaming := by
  constructor
  · intro a
    simp [recorder]
  · intro x y a
    simp [recorder]

theorem recorder_NeverFails : recorder.NeverFails := by
  intro p a
  rfl

/-- Witness of C3: "foo" written as "f", "", "oo" into an in-memory sink. -/
theorem C3_chunked_digest_witness :
    (Writer.plain bytesBuffer).AcceptsAll ∧ recorder.Streaming ∧
    ([[102], [], [111, 111]] : List (List Byte)).flatten = [102, 111, 111] ∧
    (writeChunks (NewWriter recorder.onAcc (Writer.plain bytesBuffer).onStream)
        [[102], [], [111, 111]] ⟨[], []⟩).2.acc = (recorder.Write [102, 111, 111] []).2 ∧
    ∀ b, recorder.Sum b (writeChunks (NewWriter recorder.onAcc
        (Writer.plain bytesBuffer).onStream) [[102], [], [111, 111]] ⟨[], []⟩).2.acc =
      recorder.Sum b (recorder.Write [102, 111, 111] []).2 :=
  ⟨bytesBuffer_AcceptsAll, recorder_Streaming, by decide,
    C3_chunked_digest recorder (Writer.plain bytesBuffer) [102, 111, 111]
      [[102], [], [111, 111]] [] [] bytesBuffer_AcceptsAll recorder_Streaming (by decide)⟩

/-- C4, as stated, fails: the destination takes only the first byte of the
two-byte write `[1, 2]`, holds `[1]` and reports count 1 with an error;
`Write` returns that count and error, and the recording accumulator is still
empty, so it has not ingested the one byte `[1]` that reached the
destination. -/
theorem C4_short_write_counterexample :
    (shortWriter 1 (some (GoError.other 7))).Write [1, 2] [] =
      ((1, some (GoError.other 7)), [1]) ∧
    (NewWriter recorder.onAcc
        (Writer.plain (shortWriter 1 (some (GoError.other 7)))).onStream).Write [1, 2]
        ⟨[], []⟩ = ((1, some (GoError.other 7)), ⟨[1], []⟩) ∧
    ((NewWriter recorder.onAcc
        (Writer.plain (shortWriter 1 (some (GoError.other 7)))).onStream).Write [1, 2]
        ⟨[], []⟩).2.acc ≠ (recorder.Write (([1, 2] : List Byte).take 1) []).2 := by
  decide

/-- C4, amended: when the destination reports a count `k < len b` for its
write of `b` (with or without an error), `Write b` on `NewWriter h w` returns
that count, the destination is as its own write left it, and the accumulator
has ingested nothing of `b`: its state, hence its digest, is unchanged. -/
theorem C4_short_write_hashes_nothing {δ η : Type} (h : Hash η) (w : Writer δ) (b : List Byte)
    (k : Nat) (d : δ) (a : η)
    (hk : k < b.length) (hw : (w.Write b d).1.1 = (k : Int)) :
    ((NewWriter h.onAcc w.onStream).Write b ⟨d, a⟩).1.1 = (k : Int) ∧
    ((NewWriter h.onAcc w.onStream).Write b ⟨d, a⟩).2 = ⟨(w.Write b d).2, a⟩ := by
  have hne : (w.Write b d).1.1 ≠ (b.length : Int) := by
    rw [hw]
    exact_mod_cast Nat.ne_of_lt hk
  rw [NewWriter_onWorld_Write]
  by_cases he : (w.Write b d).1.2 = none
  · rw [if_neg (not_not.mpr he), if_pos hne]
    exact ⟨hw, rfl⟩
  · rw [if_pos he]
    exact ⟨hw, rfl⟩

/-- Witness of the amended C4: one byte of two accepted, nothing hashed. -/
theorem C4_short_write_hashes_nothing_witness :
    ((NewWriter recorder.onAcc (Writer.plain (shortWriter 1 none)).onStream).Write [1, 2]
        ⟨[], []⟩).1.1 = 1 ∧
    ((NewWriter recorder.onAcc (Writer.plain (shortWriter 1 none)).onStream).Write [1, 2]
        ⟨[], []⟩).2 = ⟨[1], []⟩ :=
  C4_short_write_hashes_nothing recorder (Writer.plain (shortWriter 1 none)) [1, 2] 1 [] []
    (by decide) (by decide)

/-- C5, as stated, fails: the destination takes one byte of the two-byte
write `[1, 2]` and reports no error, yet `Write` returns `io.ErrShortWrite`,
an error the destination did not report (the recording accumulator never
fails). -/
theorem C5_error_counterexample :
    ((shortWriter 1 none).Write [1, 2] []).1 = (1, none) ∧
    ((NewWriter recorder.onAcc (Writer.plain (shortWriter 1 none)).onStream).Write [1, 2]
        (⟨[], []⟩ : World (List Byte) (List Byte))).1 = (1, some GoError.ErrShortWrite) ∧
    ((NewWriter recorder.onAcc (Writer.plain (shortWriter 1 none)).onStream).Write [1, 2]
        (⟨[], []⟩ : World (List Byte) (List Byte))).1.2 ≠
      ((shortWriter 1 none).Write [1, 2] []).1.2 := by
  decide

/-- C5, amended: with an accumulator whose ingest does not fail, the error of
`Write b` on `NewWriter h w` is the destination's error when the destination
reports one or reports the count `len b`; when the destination reports no
error and a count other than `len b`, the error is `io.ErrShortWrite`. -/
theorem C5_error_of_write {σ : Type} (h : Hash σ) (w : Writer σ) (b : List Byte) (s : σ)
    (hh : (h.Write b (w.Write b s).2).1 = ((b.length : Int), none)) :
    ((NewWriter h w).Write b s).1.2 =
      if (w.Write b s).1.2 = none ∧ (w.Write b s).1.1 ≠ (b.length : Int) then
        some GoError.ErrShortWrite
      else (w.Write b s).1.2 := by
  rw [NewWriter_Write]
  by_cases he : (w.Write b s).1.2 = none
  · by_cases hn : (w.Write b s).1.1 = (b.length : Int)
    · simp [he, hn, hh]
    · simp [he, hn]
  · simp [he]

/-- Witness of the amended C5: a destination failing with its own error
after one byte; that error is returned. -/
theorem C5_error_of_write_witness :
    ((NewWriter recorder.onAcc
        (Writer.plain (shortWriter 1 (some (GoError.other 7)))).onStream).Write [1, 2]
        (⟨[], []⟩ : World (List Byte) (List Byte))).1.2 = some (GoError.other 7) :=
  (C5_error_of_write recorder.onAcc
    (Writer.plain (shortWriter 1 (some (GoError.other 7)))).onStream [1, 2] ⟨[], []⟩
    (by decide)).trans (by decide)

/-- C6: with an accumulator whose ingest accepts its whole input without
error, `Write b` on `NewWriter h w` returns the count `k` that the
destination's write of `b` reported, whether `k = len b` or not and whether
an error came with it or not. -/
theorem C6_count_fidelity {σ : Type} (h : Hash σ) (w : Writer σ) (b : List Byte) (s : σ)
    (k : Int) (hw : (w.Write b s).1.1 = k)
    (hh : (h.Write b (w.Write b s).2).1 = ((b.length : Int), none)) :
    ((NewWriter h w).Write b s).1.1 = k := by
  subst hw
  rw [NewWriter_Write]
  by_cases he : (w.Write b s).1.2 = none
  · by_cases hn : (w.Write b s).1.1 = (b.length : Int)
    · simp [he, hn, hh]
    · simp [he, hn]
  · simp [he]

/-- Witness of C6: a destination that takes one byte of two and reports an
error; the count 1 is returned. -/
theorem C6_count_fidelity_witness :
    ((NewWriter recorder.onAcc
        (Writer.plain (shortWriter 1 (some (GoError.other 7)))).onStream).Write [1, 2]
        (⟨[], []⟩ : World (List Byte) (List Byte))).1.1 = 1 :=
  C6_count_fidelity recorder.onAcc
    (Writer.plain (shortWriter 1 (some (GoError.other 7)))).onStream [1, 2] ⟨[], []⟩ 1
    (by decide) (by decide)

/-- C7: when the destination's write of `b` fails with count 0 and an error
`e`, `Write b` on `NewWriter h w` returns `(0, e)`, and the accumulator's
state is unchanged: nothing is ingested for that call. -/
theorem C7_failed_write_hashes_nothing {δ η : Type} (h : Hash η) (w : Writer δ) (b : List Byte)
    (d : δ) (a : η) (e : GoError)
    (hw : (w.Write b d).1 = (0, some e)) :
    (NewWriter h.onAcc w.onStream).Write b ⟨d, a⟩ = ((0, some e), ⟨(w.Write b d).2, a⟩) := by
  rw [NewWriter_onWorld_Write]
  simp [hw]

/-- Witness of C7: a destination that takes nothing and fails. -/
theorem C7_failed_write_hashes_nothing_witness :
    (NewWriter recorder.onAcc
        (Writer.plain (shortWriter 0 (some (GoError.other 7)))).onStream).Write [1, 2]
        ⟨[], [9]⟩ = ((0, some (GoError.other 7)), ⟨[], [9]⟩) :=
  C7_failed_write_hashes_nothing recorder (Writer.plain (shortWriter 0 (some (GoError.other 7))))
    [1, 2] [] [9] (GoError.other 7) (by decide)

/-! ## Claims on the hashing reader -/

/-- What one `Read` on `NewReader h r` does when the source and the
accumulator own the two components of the world. -/
theorem NewReader_onWorld_Read {δ η : Type} (h : Hash η) (r : Reader δ) (p : List Byte)
    (s : World δ η) :
    (NewReader h.onAcc r.onStream).Read p s =
      if (r.Read p s.stream).1.1 > 0 then
        if (r.Read p s.stream).1.1 > (p.length : Int) then none
        else if (h.Write ((r.Read p s.stream).1.2.2.take (r.Read p s.stream).1.1.toNat)
            s.acc).1.2 ≠ none then
          some (((h.Write ((r.Read p s.stream).1.2.2.take (r.Read p s.stream).1.1.toNat)
                s.acc).1.1,
              (h.Write ((r.Read p s.stream).1.2.2.take (r.Read p s.stream).1.1.toNat)
                s.acc).1.2,
              (r.Read p s.stream).1.2.2),
            ⟨(r.Read p s.stream).2,
              (h.Write ((r.Read p s.stream).1.2.2.take (r.Read p s.stream).1.1.toNat)
                s.acc).2⟩)
        else
          some ((r.Read p s.stream).1,
            ⟨(r.Read p s.stream).2,
              (h.Write ((r.Read p s.stream).1.2.2.take (r.Read p s.stream).1.1.toNat)
                s.acc).2⟩)
      else some ((r.Read p s.stream).1, ⟨(r.Read p s.stream).2, s.acc⟩) := by
  simp only [NewReader, TeeReader, teeReader.Read, Reader.onStream, Hash.onAcc, Hash.toWriter,
    Writer.Write]

/-- C8: when the source's read reports the count `k`, `0 <= k <= len p`,
with any signal, `Read p` on `NewReader h r` returns and leaves the
accumulator in the state reached by one ingest of the first `k` bytes of the
buffer as the source filled it; for `k = 0` the accumulator's state is
unchanged. -/
theorem C8_read_ingests_count {δ η : Type} (h : Hash η) (r : Reader δ) (p : List Byte)
    (src : δ) (a : η) (k : Nat)
    (hk : (r.Read p src).1.1 = (k : Int)) (hkn : k ≤ p.length) :
    ∃ res, (NewReader h.onAcc r.onStream).Read p ⟨src, a⟩ =
      some (res, ⟨(r.Read p src).2,
        if k = 0 then a else (h.Write ((r.Read p src).1.2.2.take k) a).2⟩) := by
  rw [NewReader_onWorld_Read]
  simp only [hk, Int.toNat_ofNat]
  have hle : ¬ ((k : Int) > (p.length : Int)) := by
    have : (k : Int) ≤ (p.length : Int) := by exact_mod_cast hkn
    omega
  by_cases h0 : k = 0
  · subst h0
    simp
  · have hpos : (k : Int) > 0 := by
      have : 0 < k := Nat.pos_of_ne_zero h0
      exact_mod_cast this
    simp only [hpos, hle, h0, if_true, if_false]
    split_ifs <;> exact ⟨_, rfl⟩

/-- Witness of C8: the source delivers two trailing bytes together with
end-of-stream into a three-byte buffer; exactly those two bytes are added to
the accumulator. -/
theorem C8_read_ingests_count_witness :
    ∃ res, (NewReader recorder.onAcc (fixedSource [7, 8] (some GoError.EOF)).onStream).Read
      [0, 0, 0] ⟨(), [9]⟩ = some (res, ⟨(), [9, 7, 8]⟩) :=
  C8_read_ingests_count recorder (fixedSource [7, 8] (some GoError.EOF)) [0, 0, 0] () [9] 2
    (by decide) (by decide)

/-- C9: when the source's read reports `(k, sig)` with `0 <= k <= len p` and
the accumulator's ingest reports no error, `Read p` on `NewReader h r`
returns exactly the source's count and signal, with the buffer as the source
left it. -/
theorem C9_read_result_unchanged {δ η : Type} (h : Hash η) (r : Reader δ) (p : List Byte)
    (src : δ) (a : η) (k : Nat)
    (hk : (r.Read p src).1.1 = (k : Int)) (hkn : k ≤ p.length)
    (hh : (h.Write ((r.Read p src).1.2.2.take k) a).1.2 = none) :
    ∃ s1, (NewReader h.onAcc r.onStream).Read p ⟨src, a⟩ = some ((r.Read p src).1, s1) := by
  rw [NewReader_onWorld_Read]
  simp only [hk, Int.toNat_ofNat]
  have hle : ¬ ((k : Int) > (p.length : Int)) := by
    have : (k : Int) ≤ (p.length : Int) := by exact_mod_cast hkn
    omega
  simp only [hle, hh, ne_eq, not_true_eq_false, if_false]
  split_ifs <;> exact ⟨_, rfl⟩

/-- Witness of C9: two bytes and end-of-stream are handed on unchanged. -/
theorem C9_read_result_unchanged_witness :
    ∃ s1, (NewReader recorder.onAcc (fixedSource [7, 8] (some GoError.EOF)).onStream).Read
      [0, 0, 0] ⟨(), [9]⟩ = some ((2, some GoError.EOF, [7, 8, 0]), s1) :=
  C9_read_result_unchanged recorder (fixedSource [7, 8] (some GoError.EOF)) [0, 0, 0] () [9] 2
    (by decide) (by decide) (by decide)

/-- One `Read` through `NewReader`, for a source within bounds and a
streaming accumulator that never fails: the call returns the source's
result, and the accumulator has ingested what the call returned. -/
theorem NewReader_Read_step {δ η : Type} (h : Hash η) (r : Reader δ)
    (hr : r.InBounds) (hn : h.NeverFails) (hs : h.Streaming) (p : List Byte) (s : World δ η) :
    (NewReader h.onAcc r.onStream).Read p s =
      some ((r.Read p s.stream).1,
        ⟨(r.Read p s.stream).2, (h.Write (returned (r.Read p s.stream).1) s.acc).2⟩) := by
  rw [NewReader_onWorld_Read]
  have hle : ¬ ((r.Read p s.stream).1.1 > (p.length : Int)) := by
    have := hr p s.stream
    omega
  by_cases hpos : (r.Read p s.stream).1.1 > 0
  · simp only [hpos, hle, hn _ _, ne_eq, not_true_eq_false, if_true, if_false, returned]
  · have h0 : (r.Read p s.stream).1.1.toNat = 0 := by
      apply Int.toNat_eq_zero.mpr
      omega
    simp only [hpos, if_false, returned, h0, List.take_zero, hs.1]

/-- The accumulator after a run of `Read` calls through `NewReader`. -/
theorem readCalls_acc {δ η : Type} (h : Hash η) (r : Reader δ)
    (hr : r.InBounds) (hn : h.NeverFails) (hs : h.Streaming) (bufs : List (List Byte))
    (s : World δ η) :
    ∃ rs s1, readCalls (NewReader h.onAcc r.onStream) bufs s = some (rs, s1) ∧
      rs.length = bufs.length ∧
      s1.acc = (h.Write (rs.map returned).flatten s.acc).2 := by
  induction bufs generalizing s with
  | nil => exact ⟨[], s, rfl, rfl, by simp [hs.1]⟩
  | cons p ps ih =>
    obtain ⟨rs, s2, h1, h2, h3⟩ := ih
      ⟨(r.Read p s.stream).2, (h.Write (returned (r.Read p s.stream).1) s.acc).2⟩
    refine ⟨(r.Read p s.stream).1 :: rs, s2, ?_, by simp [h2], ?_⟩
    · simp only [readCalls, NewReader_Read_step h r hr hn hs, h1]
    · rw [h3, List.map_cons, List.flatten_cons, hs.2]

/-- C10: for every source that keeps `n <= len(p)` (whatever its counts,
errors and end-of-stream signals) and every finite sequence of `Read` calls
on `NewReader h r`, with `h` a streaming accumulator that never fails, all
calls return, and the accumulator is in the state reached by ingesting the
concatenation, in call order, of the bytes each call returned. -/
theorem C10_reader_hashes_returned_bytes {δ η : Type} (h : Hash η) (r : Reader δ)
    (bufs : List (List Byte)) (src : δ) (a : η)
    (hr : r.InBounds) (hn : h.NeverFails) (hs : h.Streaming) :
    ∃ rs s1, readCalls (NewReader h.onAcc r.onStream) bufs ⟨src, a⟩ = some (rs, s1) ∧
      rs.length = bufs.length ∧
      s1.acc = (h.Write (rs.map returned).flatten a).2 :=
  readCalls_acc h r hr hn hs bufs ⟨src, a⟩

theorem bytesSource_InBounds : bytesSource.InBounds := by
  intro p d
  simp only [bytesSource]
  split_ifs
  · simp
  · simp
  · simp only [Nat.cast_le]
    omega

/-- Witness of C10: three bytes read from an in-memory source through
two-byte buffers, up to and including the end-of-stream call. -/
theorem C10_reader_hashes_returned_bytes_witness :
    bytesSource.InBounds ∧ recorder.NeverFails ∧ recorder.Streaming ∧
    ∃ rs s1, readCalls (NewReader recorder.onAcc bytesSource.onStream)
        [[0, 0], [0, 0], [0, 0]] ⟨[1, 2, 3], []⟩ = some (rs, s1) ∧
      rs.length = 3 ∧
      s1.acc = (recorder.Write (rs.map returned).flatten []).2 :=
  ⟨bytesSource_InBounds, recorder_NeverFails, recorder_Streaming,
    C10_reader_hashes_returned_bytes recorder bytesSource [[0, 0], [0, 0], [0, 0]] [1, 2, 3] []
      bytesSource_InBounds recorder_NeverFails recorder_Streaming⟩

/-! ## Claims on reading from an in-memory source -/

/-- One read from a non-empty in-memory source. -/
theorem bytesSource_Read_of_ne (p buf : List Byte) (hb : buf ≠ []) :
    bytesSource.Read p buf =
      ((((min p.length buf.length : Nat) : Int), (none : Option GoError),
          buf.take (min p.length buf.length) ++ p.drop (min p.length buf.length)),
        buf.drop (min p.length buf.length)) := by
  simp [bytesSource, hb]

/-- C11: for every byte sequence `s` (the empty one included) and every
buffer of length exactly `len s`, one `Read` through `NewReader h src`, with
`src` an in-memory source holding `s`, returns `(len s, nil)`, leaves the
buffer equal to `s`, and leaves the accumulator, started in any state `a`
(in particular the fresh one), with the state and snapshot of an accumulator
started in `a` that ingested `s` directly. The accumulator's ingest of `s`
reports no error and ingesting nothing leaves its state alone. -/
theorem C11_read_whole_source {η : Type} (h : Hash η) (s p : List Byte) (a : η)
    (hp : p.length = s.length)
    (hh : (h.Write s a).1.2 = none) (h0 : (h.Write [] a).2 = a) :
    (NewReader h.onAcc bytesSource.onStream).Read p ⟨s, a⟩ =
      some (((s.length : Int), none, s), ⟨[], (h.Write s a).2⟩) ∧
    ∀ b, Option.map (fun out => h.Sum b out.2.acc)
        ((NewReader h.onAcc bytesSource.onStream).Read p ⟨s, a⟩) =
      some (h.Sum b (h.Write s a).2) := by
  have key : (NewReader h.onAcc bytesSource.onStream).Read p ⟨s, a⟩ =
      some (((s.length : Int), none, s), ⟨[], (h.Write s a).2⟩) := by
    rw [NewReader_onWorld_Read]
    cases s with
    | nil =>
      have hp0 : p = [] := List.length_eq_zero.mp hp
      subst hp0
      simp [bytesSource, h0]
    | cons x xs =>
      have hpos : ((x :: xs).length : Int) > 0 := by
        simp only [List.length_cons]
        omega
      have hdrop : p.drop (x :: xs).length = [] := List.drop_eq_nil_of_le (Nat.le_of_eq hp)
      simp only [bytesSource_Read_of_ne p (x :: xs) (List.cons_ne_nil x xs), hp, Nat.min_self,
        List.take_length, List.drop_length, hdrop, List.append_nil, Int.toNat_ofNat, hpos, hh,
        gt_iff_lt, lt_self_iff_false, ne_eq, not_true_eq_false, if_true, if_false]
  exact ⟨key, fun b => by rw [key]; rfl⟩

/-- Witness of C11: the three bytes of "foo" read into a three-byte buffer. -/
theorem C11_read_whole_source_witness :
    (NewReader recorder.onAcc bytesSource.onStream).Read [0, 0, 0] ⟨[102, 111, 111], []⟩ =
      some ((3, none, [102, 111, 111]), ⟨[], [102, 111, 111]⟩) ∧
    ∀ b, Option.map (fun out => recorder.Sum b out.2.acc)
        ((NewReader recorder.onAcc bytesSource.onStream).Read [0, 0, 0]
          ⟨[102, 111, 111], []⟩) =
      some (recorder.Sum b (recorder.Write [102, 111, 111] []).2) :=
  C11_read_whole_source recorder [102, 111, 111] [0, 0, 0] [] (by decide) (by decide)
    (by decide)

/-- The read loop over an in-memory source holding `buf`, entered with
`numBytes + len buf = size` and fuel for one call per byte left: it ends
with `numBytes = size`, the source drained, no call having reported an error
or end-of-stream, the calls having returned `buf` piece by piece, and the
accumulator having ingested `buf`. -/
theorem BenchHashReader.loop_bytesSource {η : Type} (h : Hash η) (hn : h.NeverFails)
    (hs : h.Streaming) (m size : Nat) (hm : 0 < m) (fuel : Nat) :
    ∀ (buf output : List Byte) (a : η) (numBytes : Int),
      output.length = m → numBytes + (buf.length : Int) = (size : Int) → buf.length ≤ fuel →
      ∃ rs, BenchHashReader.loop (NewReader h.onAcc bytesSource.onStream) size fuel numBytes
          output ⟨buf, a⟩ = some (rs, (size : Int), ⟨[], (h.Write buf a).2⟩) ∧
        (∀ res ∈ rs, res.2.1 = none) ∧ (rs.map returned).flatten = buf ∧
        ∀ res ∈ rs, (returned res).length ≤ m := by
  induction fuel with
  | zero =>
    intro buf output a numBytes _ hinv hfuel
    have hb : buf = [] := List.length_eq_zero.mp (Nat.le_zero.mp hfuel)
    subst hb
    have hnb : numBytes = (size : Int) := by simpa using hinv
    subst hnb
    exact ⟨[], by simp [BenchHashReader.loop, hs.1], by simp, by simp, by simp⟩
  | succ fuel ih =>
    intro buf output a numBytes hout hinv hfuel
    cases buf with
    | nil =>
      have hnb : numBytes = (size : Int) := by simpa using hinv
      subst hnb
      exact ⟨[], by simp [BenchHashReader.loop, hs.1], by simp, by simp, by simp⟩
    | cons x xs =>
      have hlt : numBytes < (size : Int) := by
        simp only [List.length_cons] at hinv
        omega
      have hk1 : 1 ≤ min output.length (x :: xs).length := by
        simp only [List.length_cons]
        omega
      have hkl : min output.length (x :: xs).length ≤ (x :: xs).length := Nat.min_le_right _ _
      have hret : returned (bytesSource.Read output (x :: xs)).1 =
          (x :: xs).take (min output.length (x :: xs).length) := by
        rw [bytesSource_Read_of_ne output (x :: xs) (List.cons_ne_nil x xs)]
        simp only [returned, Int.toNat_ofNat]
        rw [List.take_append_of_le_length (by rw [List.length_take]; omega)]
        rw [List.take_take, Nat.min_self]
      obtain ⟨rs, h1, h2, h3, h4⟩ := ih ((x :: xs).drop (min output.length (x :: xs).length))
        ((x :: xs).take (min output.length (x :: xs).length) ++
          output.drop (min output.length (x :: xs).length))
        (h.Write ((x :: xs).take (min output.length (x :: xs).length)) a).2
        (numBytes + ((min output.length (x :: xs).length : Nat) : Int))
        (by
          simp only [List.length_append, List.length_take, List.length_drop]
          omega)
        (by
          rw [List.length_drop]
          have : (((x :: xs).length - min output.length (x :: xs).length : Nat) : Int) =
              ((x :: xs).length : Int) - ((min output.length (x :: xs).length : Nat) : Int) :=
            Int.ofNat_sub hkl
          omega)
        (by
          rw [List.length_drop]
          omega)
      refine ⟨(bytesSource.Read output (x :: xs)).1 :: rs, ?_, ?_, ?_, ?_⟩
      · rw [BenchHashReader.loop, if_pos hlt,
          NewReader_Read_step h bytesSource bytesSource_InBounds hn hs, hret]
        simp only [bytesSource_Read_of_ne output (x :: xs) (List.cons_ne_nil x xs)]
        simp only [ne_eq, not_true_eq_false, false_and, if_false, h1]
        rw [← hs.2, List.take_append_drop]
      · intro res hres
        rcases List.mem_cons.mp hres with hres | hres
        · rw [hres, bytesSource_Read_of_ne output (x :: xs) (List.cons_ne_nil x xs)]
        · exact h2 res hres
      · rw [List.map_cons, List.flatten_cons, hret, h3, List.take_append_drop]
      · intro res hres
        rcases List.mem_cons.mp hres with hres | hres
        · rw [hres, hret, List.length_take]
          omega
        · exact h4 res hres

/-- C12: for every payload `p` and every positive buffer size `m`, the read
loop over `NewReader h src`, with `src` an in-memory source holding `p` and
`h` a streaming accumulator that never fails, started in any state `a` (in
particular the fresh one), ends (fuel for `len p` calls is enough) with the
cumulative count `len p`; no call reports an error or end-of-stream before
that; the calls return `p` piece by piece; the accumulator ends in the state
of having ingested the whole of `p`; and when `m < len p` at least two calls
are made. -/
theorem C12_read_loop_digest {η : Type} (h : Hash η) (p : List Byte) (m fuel : Nat) (a : η)
    (hm : 0 < m) (hfuel : p.length ≤ fuel) (hn : h.NeverFails) (hs : h.Streaming) :
    ∃ rs, BenchHashReader.loop (NewReader h.onAcc bytesSource.onStream) p.length fuel 0
        (List.replicate m 0) ⟨p, a⟩ = some (rs, (p.length : Int), ⟨[], (h.Write p a).2⟩) ∧
      (∀ res ∈ rs, res.2.1 = none) ∧ (rs.map returned).flatten = p ∧
      (m < p.length → 2 ≤ rs.length) := by
  obtain ⟨rs, h1, h2, h3, h4⟩ := BenchHashReader.loop_bytesSource h hn hs m p.length hm fuel p
    (List.replicate m 0) a 0 (by simp) (by simp) hfuel
  refine ⟨rs, h1, h2, h3, ?_⟩
  intro hlt
  match rs, h3, h4 with
  | [], h3, _ =>
    rw [← h3] at hlt
    simp at hlt
  | [r], h3, h4 =>
    have hr := h4 r (List.mem_singleton.mpr rfl)
    rw [← h3] at hlt
    simp only [List.map_cons, List.map_nil, List.flatten_cons, List.flatten_nil,
      List.append_nil] at hlt
    omega
  | _ :: _ :: _, _, _ => simp

/-- Witness of C12: five bytes read through a two-byte buffer in three calls. -/
theorem C12_read_loop_digest_witness :
    recorder.NeverFails ∧ recorder.Streaming ∧
    ∃ rs, BenchHashReader.loop (NewReader recorder.onAcc bytesSource.onStream) 5 5 0
        (List.replicate 2 0) ⟨[1, 2, 3, 4, 5], []⟩ =
          some (rs, 5, ⟨[], (recorder.Write [1, 2, 3, 4, 5] []).2⟩) ∧
      (∀ res ∈ rs, res.2.1 = none) ∧ (rs.map returned).flatten = [1, 2, 3, 4, 5] ∧
      (2 < ([1, 2, 3, 4, 5] : List Byte).length → 2 ≤ rs.length) :=
  ⟨recorder_NeverFails, recorder_Streaming,
    C12_read_loop_digest recorder [1, 2, 3, 4, 5] 2 5 [] (by decide) (by decide)
      recorder_NeverFails recorder_Streaming⟩

/-- C13: when the source's read reports `k > 0` trailing bytes together with
end-of-stream (and the accumulator's ingest of them reports no error),
`Read` on `NewReader h r` returns `(k, io.EOF)` and the accumulator has
ingested exactly those `k` bytes; and a later `Read`, in whatever state, for
which the source reports `(0, io.EOF)` returns `(0, io.EOF)` and leaves the
accumulator's state unchanged. -/
theorem C13_end_of_stream {δ η : Type} (h : Hash η) (r : Reader δ)
    (p : List Byte) (src : δ) (a : η) (k : Nat)
    (p2 : List Byte) (src2 : δ) (a2 : η)
    (hk : (r.Read p src).1.1 = (k : Int)) (hpos : 0 < k) (hkn : k ≤ p.length)
    (hsig : (r.Read p src).1.2.1 = some GoError.EOF)
    (hh : (h.Write ((r.Read p src).1.2.2.take k) a).1.2 = none)
    (hk2 : (r.Read p2 src2).1.1 = 0) (hsig2 : (r.Read p2 src2).1.2.1 = some GoError.EOF) :
    (NewReader h.onAcc r.onStream).Read p ⟨src, a⟩ =
      some (((k : Int), some GoError.EOF, (r.Read p src).1.2.2),
        ⟨(r.Read p src).2, (h.Write ((r.Read p src).1.2.2.take k) a).2⟩) ∧
    (NewReader h.onAcc r.onStream).Read p2 ⟨src2, a2⟩ =
      some ((0, some GoError.EOF, (r.Read p2 src2).1.2.2), ⟨(r.Read p2 src2).2, a2⟩) := by
  constructor
  · rw [NewReader_onWorld_Read]
    have hgt : (k : Int) > 0 := by exact_mod_cast hpos
    have hle : ¬ ((k : Int) > (p.length : Int)) := by
      have : (k : Int) ≤ (p.length : Int) := by exact_mod_cast hkn
      omega
    simp only [hk, Int.toNat_ofNat, hgt, hle, hh, ne_eq, not_true_eq_false, if_true, if_false]
    rw [← hk, ← hsig]
  · rw [NewReader_onWorld_Read]
    simp only [hk2, gt_iff_lt, lt_self_iff_false, if_false]
    rw [← hk2, ← hsig2]

/-- Witness of C13: a source holding `[7, 8]` and a three-byte buffer; the
first call delivers both bytes with end-of-stream, the next call on the
drained source reports `(0, io.EOF)` and hashes nothing more. -/
theorem C13_end_of_stream_witness :
    (NewReader recorder.onAcc eofSource.onStream).Read [0, 0, 0] ⟨[7, 8], [9]⟩ =
      some ((2, some GoError.EOF, [7, 8, 0]), ⟨[], [9, 7, 8]⟩) ∧
    (NewReader recorder.onAcc eofSource.onStream).Read [7, 8, 0] ⟨[], [9, 7, 8]⟩ =
      some ((0, some GoError.EOF, [7, 8, 0]), ⟨[], [9, 7, 8]⟩) :=
  C13_end_of_stream recorder eofSource [0, 0, 0] [7, 8] [9] 2 [7, 8, 0] [] [9, 7, 8]
    (by decide) (by decide) (by decide) (by decide) (by decide) (by decide) (by decide)

/-! ## Claims on errors, chaining and short writes of the hashing writer -/

/-- C14, as stated, fails: the destination takes the first two bytes of the
three-byte write `[5, 6, 7]`, holds `[5, 6]` and reports count 2 together
with an error; `Write` returns that count and error, and the recording
accumulator is still empty, so it has not ingested the two bytes `[5, 6]` of
the reported count. -/
theorem C14_count_with_error_counterexample :
    (shortWriter 2 (some (GoError.other 3))).Write [5, 6, 7] [] =
      ((2, some (GoError.other 3)), [5, 6]) ∧
    (NewWriter recorder.onAcc
        (Writer.plain (shortWriter 2 (some (GoError.other 3)))).onStream).Write [5, 6, 7]
        ⟨[], []⟩ = ((2, some (GoError.other 3)), ⟨[5, 6], []⟩) ∧
    ((NewWriter recorder.onAcc
        (Writer.plain (shortWriter 2 (some (GoError.other 3)))).onStream).Write [5, 6, 7]
        ⟨[], []⟩).2.acc ≠ (recorder.Write (([5, 6, 7] : List Byte).take 2) []).2 := by
  decide

/-- C14, amended: when the destination's write of `b` reports a count `k`
(in particular one with `0 < k <= len b`) together with an error `e`,
`Write b` on `NewWriter h w` returns `(k, e)`, the destination is as its own
write left it, and the accumulator has ingested nothing of `b`: its state is
unchanged. -/
theorem C14_count_with_error_hashes_nothing {δ η : Type} (h : Hash η) (w : Writer δ)
    (b : List Byte) (k : Int) (d : δ) (a : η) (e : GoError)
    (hw : (w.Write b d).1 = (k, some e)) :
    (NewWriter h.onAcc w.onStream).Write b ⟨d, a⟩ = ((k, some e), ⟨(w.Write b d).2, a⟩) := by
  rw [NewWriter_onWorld_Write]
  simp [hw]

/-- Witness of the amended C14: all three bytes taken, yet an error
reported; nothing is hashed. -/
theorem C14_count_with_error_hashes_nothing_witness :
    (NewWriter recorder.onAcc
        (Writer.plain (shortWriter 3 (some (GoError.other 3)))).onStream).Write [5, 6, 7]
        ⟨[], [9]⟩ = ((3, some (GoError.other 3)), ⟨[5, 6, 7], [9]⟩) :=
  C14_count_with_error_hashes_nothing recorder
    (Writer.plain (shortWriter 3 (some (GoError.other 3)))) [5, 6, 7] 3 [] [9] (GoError.other 3)
    (by decide)

/-- C15: for accumulators `h1`, `h2` whose ingest of `b` does not fail and a
destination `w` that accepts `b` in full, one `Write b` on
`NewWriter h2 (NewWriter h1 w)` returns `(len b, nil)`, leaves the
destination after exactly one write of `b` and each accumulator after exactly
one ingest of `b`; and `NewWriter h1 (NewWriter h2 w)` gives the same result
and the same final states. -/
theorem C15_chaining {δ η₁ η₂ : Type} (h1 : Hash η₁) (h2 : Hash η₂) (w : Writer δ)
    (b : List Byte) (d : δ) (a1 : η₁) (a2 : η₂)
    (hw : (w.Write b d).1 = ((b.length : Int), none))
    (hh1 : (h1.Write b a1).1 = ((b.length : Int), none))
    (hh2 : (h2.Write b a2).1 = ((b.length : Int), none)) :
    (NewWriter h2.onSnd.onAcc (NewWriter h1.onFst.onAcc w.onStream)).Write b ⟨d, (a1, a2)⟩ =
      (((b.length : Int), none), ⟨(w.Write b d).2, ((h1.Write b a1).2, (h2.Write b a2).2)⟩) ∧
    (NewWriter h1.onFst.onAcc (NewWriter h2.onSnd.onAcc w.onStream)).Write b ⟨d, (a1, a2)⟩ =
      (NewWriter h2.onSnd.onAcc (NewWriter h1.onFst.onAcc w.onStream)).Write b
        ⟨d, (a1, a2)⟩ := by
  have e1 : (NewWriter h2.onSnd.onAcc (NewWriter h1.onFst.onAcc w.onStream)).Write b
      ⟨d, (a1, a2)⟩ =
      (((b.length : Int), none),
        ⟨(w.Write b d).2, ((h1.Write b a1).2, (h2.Write b a2).2)⟩) := by
    rw [NewWriter_Write, NewWriter_onWorld_Write]
    simp [hw, hh1, hh2, Hash.onFst, Hash.onSnd, Hash.onAcc]
  have e2 : (NewWriter h1.onFst.onAcc (NewWriter h2.onSnd.onAcc w.onStream)).Write b
      ⟨d, (a1, a2)⟩ =
      (((b.length : Int), none),
        ⟨(w.Write b d).2, ((h1.Write b a1).2, (h2.Write b a2).2)⟩) := by
    rw [NewWriter_Write, NewWriter_onWorld_Write]
    simp [hw, hh1, hh2, Hash.onFst, Hash.onSnd, Hash.onAcc]
  exact ⟨e1, e2.trans e1.symm⟩

/-- Witness of C15: "foo" through a recording accumulator and an 8-bit
checksum, chained in both orders over an in-memory sink. -/
theorem C15_chaining_witness :
    (NewWriter sum8.onSnd.onAcc
        (NewWriter recorder.onFst.onAcc (Writer.plain bytesBuffer).onStream)).Write
        [102, 111, 111] ⟨[], ([], 0)⟩ =
      ((3, none), ⟨[102, 111, 111], ([102, 111, 111], 68)⟩) ∧
    (NewWriter recorder.onFst.onAcc
        (NewWriter sum8.onSnd.onAcc (Writer.plain bytesBuffer).onStream)).Write
        [102, 111, 111] ⟨[], ([], 0)⟩ =
      (NewWriter sum8.onSnd.onAcc
        (NewWriter recorder.onFst.onAcc (Writer.plain bytesBuffer).onStream)).Write
        [102, 111, 111] ⟨[], ([], 0)⟩ :=
  C15_chaining recorder sum8 (Writer.plain bytesBuffer) [102, 111, 111] [] [] 0
    (by decide) (by decide) (by decide)

/-- One `Write` on `NewWriter h w`: the accumulator is handed `p` exactly
when the destination accepted `p` in full and without error. -/
theorem NewWriter_onWorld_Write_world {δ η : Type} (h : Hash η) (w : Writer δ) (p : List Byte)
    (s : World δ η) :
    ((NewWriter h.onAcc w.onStream).Write p s).2 =
      ⟨(w.Write p s.stream).2,
        if (w.Write p s.stream).1 = ((p.length : Int), none) then (h.Write p s.acc).2
        else s.acc⟩ := by
  rw [NewWriter_onWorld_Write]
  by_cases he : (w.Write p s.stream).1.2 = none
  · by_cases hc : (w.Write p s.stream).1.1 = (p.length : Int)
    · have hfull : (w.Write p s.stream).1 = ((p.length : Int), none) := Prod.ext hc he
      simp only [he, hc, hfull, ne_eq, not_true_eq_false, if_true, if_false]
      split_ifs <;> rfl
    · have hfull : (w.Write p s.stream).1 ≠ ((p.length : Int), none) := fun hx =>
        hc (congrArg Prod.fst hx)
      simp only [he, hc, hfull, ne_eq, not_true_eq_false, not_false_eq_true, if_true, if_false]
  · have hfull : (w.Write p s.stream).1 ≠ ((p.length : Int), none) := fun hx =>
      he (congrArg Prod.snd hx)
    simp only [he, hfull, ne_eq, not_false_eq_true, if_true, if_false]

/-- The accumulator after a run of writes through `NewWriter`: it was handed
the chunks the destination accepted in full, in order. -/
theorem writeChunks_acc_accepted {δ η : Type} (h : Hash η) (w : Writer δ)
    (chunks : List (List Byte)) (s : World δ η) :
    (writeChunks (NewWriter h.onAcc w.onStream) chunks s).2.acc =
      (acceptedChunks w chunks s.stream).foldl (fun acc c => (h.Write c acc).2) s.acc := by
  induction chunks generalizing s with
  | nil => rfl
  | cons c cs ih =>
    simp only [writeChunks, acceptedChunks]
    rw [ih, NewWriter_onWorld_Write_world]
    by_cases hfull : (w.Write c s.stream).1 = ((c.length : Int), none)
    · simp only [hfull, if_true, List.foldl_cons]
    · simp only [hfull, if_false]

/-- For a streaming accumulator, ingesting chunks one by one is ingesting
their concatenation. -/
theorem Hash.Streaming.foldl_Write {η : Type} {h : Hash η} (hs : h.Streaming)
    (chunks : List (List Byte)) (a : η) :
    chunks.foldl (fun acc c => (h.Write c acc).2) a = (h.Write chunks.flatten a).2 := by
  induction chunks generalizing a with
  | nil => simp [hs.1]
  | cons c cs ih => rw [List.foldl_cons, ih, List.flatten_cons, hs.2]

/-- C16: one `Write b` on `NewWriter h w` leaves the destination as its own
write of `b` left it and the accumulator after one ingest of the whole of
`b` when the destination reported `(len b, nil)`, and unchanged in every
other case (an error, or a count other than `len b`). Hence after any
sequence of writes the accumulator was handed exactly the chunks the
destination accepted in full, in order, and a streaming accumulator is in
the state of having ingested their concatenation. -/
theorem C16_all_or_nothing {δ η : Type} (h : Hash η) (w : Writer δ) (b : List Byte)
    (chunks : List (List Byte)) (d : δ) (a : η) :
    ((NewWriter h.onAcc w.onStream).Write b ⟨d, a⟩).2 =
      ⟨(w.Write b d).2,
        if (w.Write b d).1 = ((b.length : Int), none) then (h.Write b a).2 else a⟩ ∧
    (writeChunks (NewWriter h.onAcc w.onStream) chunks ⟨d, a⟩).2.acc =
      (acceptedChunks w chunks d).foldl (fun acc c => (h.Write c acc).2) a ∧
    (h.Streaming →
      (writeChunks (NewWriter h.onAcc w.onStream) chunks ⟨d, a⟩).2.acc =
        (h.Write (acceptedChunks w chunks d).flatten a).2) := by
  refine ⟨NewWriter_onWorld_Write_world h w b ⟨d, a⟩,
    writeChunks_acc_accepted h w chunks ⟨d, a⟩, fun hs => ?_⟩
  rw [writeChunks_acc_accepted, hs.foldl_Write]

/-- Witness of C16: a destination that takes at most two bytes per write is
handed "12", "345", "6" and the empty chunk; it accepts all but the second in
full, and exactly those are hashed. -/
theorem C16_all_or_nothing_witness :
    acceptedChunks (Writer.plain (shortWriter 2 none)) [[1, 2], [3, 4, 5], [6], []] [] =
      [[1, 2], [6], []] ∧
    (writeChunks (NewWriter recorder.onAcc (Writer.plain (shortWriter 2 none)).onStream)
        [[1, 2], [3, 4, 5], [6], []] ⟨[], []⟩).2.acc = [1, 2, 6] :=
  ⟨by decide,
    ((C16_all_or_nothing recorder (Writer.plain (shortWriter 2 none)) [3, 4, 5]
      [[1, 2], [3, 4, 5], [6], []] [] []).2.2 recorder_Streaming).trans (by decide)⟩

/-- C17: when the destination's write of `b` reports a count `k` other than
`len b` and no error, `Write b` on `NewWriter h w` returns
`(k, io.ErrShortWrite)`, a non-nil error although the destination reported
none, and the world is as the destination's write left it. -/
theorem C17_short_write_error {σ : Type} (h : Hash σ) (w : Writer σ) (b : List Byte) (s : σ)
    (k : Int) (hw : (w.Write b s).1 = (k, none)) (hk : k ≠ (b.length : Int)) :
    (NewWriter h w).Write b s = ((k, some GoError.ErrShortWrite), (w.Write b s).2) ∧
    ((NewWriter h w).Write b s).1.2 ≠ none := by
  rw [NewWriter_Write]
  simp [hw, hk]

/-- Witness of C17: two of three bytes taken without an error. -/
theorem C17_short_write_error_witness :
    (NewWriter recorder.onAcc (Writer.plain (shortWriter 2 none)).onStream).Write [4, 5, 6]
        (⟨[], []⟩ : World (List Byte) (List Byte)) =
      ((2, some GoError.ErrShortWrite), ⟨[4, 5], []⟩) ∧
    ((NewWriter recorder.onAcc (Writer.plain (shortWriter 2 none)).onStream).Write [4, 5, 6]
        (⟨[], []⟩ : World (List Byte) (List Byte))).1.2 ≠ none :=
  C17_short_write_error recorder.onAcc (Writer.plain (shortWriter 2 none)).onStream [4, 5, 6]
    ⟨[], []⟩ 2 (by decide) (by decide)

end Hashpipe
